import Mathlib

/-!
# Verification of the YQL typed-value layer (yb/common/yql_value.h, yb/master/yql_virtual_table.h)

A shallow embedding of the YQLValue facade over the YQLValuePB tagged-union
record, its collection mutators, assignment, comparison operators, the CQL
wire codec, and the virtual-table column setter, together with theorems that
settle the specification claims about them.

Machine integers are modelled as `Int`/`Nat` with explicit range conditions;
byte strings are `List Nat` with each byte below 256.
-/

namespace YB

/-- The recoverable status conditions surfaced by this layer
(`Status::Corruption`, `Status::InvalidArgument`, `Status::NotFound`). -/
inductive RStatus where
  | corruption
  | invalidArgument
  | notFound
deriving DecidableEq, Repr

/-- `YQLValuePB::ValueCase`: the protobuf oneof case selector of the value record. -/
inductive ValueCase where
  | kInt8Value
  | kInt16Value
  | kInt32Value
  | kInt64Value
  | kFloatValue
  | kDoubleValue
  | kDecimalValue
  | kBoolValue
  | kStringValue
  | kTimestampValue
  | kBinaryValue
  | kInetaddressValue
  | kUuidValue
  | kTimeuuidValue
  | kMapValue
  | kSetValue
  | kListValue
  | VALUE_NOT_SET
deriving DecidableEq, Repr

/-- `YQLValuePB`: the tagged-union value record (protobuf oneof). Exactly one
payload is active, or none (`valueNotSet`, meaning null). Floats are carried
as their IEEE-754 bit patterns; byte strings (including the stored form of
decimal, inetaddress and uuid payloads) are lists of bytes. -/
inductive YQLValuePB where
  | valueNotSet
  | int8_value (n : Int)
  | int16_value (n : Int)
  | int32_value (n : Int)
  | int64_value (n : Int)
  | float_value (bits : Nat)
  | double_value (bits : Nat)
  | decimal_value (bs : List Nat)
  | bool_value (b : Bool)
  | string_value (bs : List Nat)
  | timestamp_value (ms : Int)
  | binary_value (bs : List Nat)
  | inetaddress_value (bs : List Nat)
  | uuid_value (bs : List Nat)
  | timeuuid_value (bs : List Nat)
  | map_value (keys : List YQLValuePB) (values : List YQLValuePB)
  | set_value (elems : List YQLValuePB)
  | list_value (elems : List YQLValuePB)

/-- `YQLValuePB::value_case()`: which oneof member is active. -/
def YQLValuePB.value_case : YQLValuePB → ValueCase
  | .valueNotSet => .VALUE_NOT_SET
  | .int8_value _ => .kInt8Value
  | .int16_value _ => .kInt16Value
  | .int32_value _ => .kInt32Value
  | .int64_value _ => .kInt64Value
  | .float_value _ => .kFloatValue
  | .double_value _ => .kDoubleValue
  | .decimal_value _ => .kDecimalValue
  | .bool_value _ => .kBoolValue
  | .string_value _ => .kStringValue
  | .timestamp_value _ => .kTimestampValue
  | .binary_value _ => .kBinaryValue
  | .inetaddress_value _ => .kInetaddressValue
  | .uuid_value _ => .kUuidValue
  | .timeuuid_value _ => .kTimeuuidValue
  | .map_value _ _ => .kMapValue
  | .set_value _ => .kSetValue
  | .list_value _ => .kListValue

/-- `YQLValue::type(v)`: return the value case of the record. -/
def YQLValue.type (v : YQLValuePB) : ValueCase := v.value_case

/-- `YQLValue::IsNull(v)`: `v.value_case() == YQLValuePB::VALUE_NOT_SET`. -/
def YQLValue.IsNull (v : YQLValuePB) : Bool :=
  v.value_case == ValueCase.VALUE_NOT_SET

/-- `YQLValue::SetNull(v)`: clear the oneof, releasing any payload. -/
def YQLValue.SetNull (_ : YQLValuePB) : YQLValuePB := .valueNotSet

/-- Outcome of an operation guarded by a hard assertion (`CHECK`): either the
value, or the process aborted because the `CHECK` tripped. -/
inductive Checked (α : Type) where
  | ok (val : α)
  | checkFailed
deriving DecidableEq, Repr

/-- `YQLValue::int8_value(v)`: `CHECK(v.has_int8_value())` then return the payload. -/
def YQLValue.int8_value : YQLValuePB → Checked Int
  | .int8_value n => .ok n
  | _ => .checkFailed

/-- `YQLValue::int16_value(v)`: `CHECK(v.has_int16_value())` then return the payload. -/
def YQLValue.int16_value : YQLValuePB → Checked Int
  | .int16_value n => .ok n
  | _ => .checkFailed

/-- `YQLValue::int32_value(v)`: `CHECK(v.has_int32_value())` then return the payload. -/
def YQLValue.int32_value : YQLValuePB → Checked Int
  | .int32_value n => .ok n
  | _ => .checkFailed

/-- `YQLValue::int64_value(v)`: `CHECK(v.has_int64_value())` then return the payload. -/
def YQLValue.int64_value : YQLValuePB → Checked Int
  | .int64_value n => .ok n
  | _ => .checkFailed

/-- `YQLValue::bool_value(v)`: `CHECK(v.has_bool_value())` then return the payload. -/
def YQLValue.bool_value : YQLValuePB → Checked Bool
  | .bool_value b => .ok b
  | _ => .checkFailed

/-- `YQLValue::string_value(v)`: `CHECK(v.has_string_value())` then return the payload. -/
def YQLValue.string_value : YQLValuePB → Checked (List Nat)
  | .string_value bs => .ok bs
  | _ => .checkFailed

/-- `YQLValue::binary_value(v)`: `CHECK(v.has_binary_value())` then return the payload. -/
def YQLValue.binary_value : YQLValuePB → Checked (List Nat)
  | .binary_value bs => .ok bs
  | _ => .checkFailed

/-- `YQLValue::timestamp_value(v)`: `CHECK(v.has_timestamp_value())` then
return `Timestamp(v.timestamp_value())` (milliseconds since epoch). -/
def YQLValue.timestamp_value : YQLValuePB → Checked Int
  | .timestamp_value ms => .ok ms
  | _ => .checkFailed

/-- `YQLValue::float_value(v)`: `CHECK(v.has_float_value())` then return the
payload (carried as its IEEE-754 bit pattern in this embedding). -/
def YQLValue.float_value : YQLValuePB → Checked Nat
  | .float_value b => .ok b
  | _ => .checkFailed

/-- `YQLValue::double_value(v)`: `CHECK(v.has_double_value())` then return
the payload (carried as its IEEE-754 bit pattern in this embedding). -/
def YQLValue.double_value : YQLValuePB → Checked Nat
  | .double_value b => .ok b
  | _ => .checkFailed

/-- `YQLValue::decimal_value(v)`: `CHECK(v.has_decimal_value())` then return
the stored encoded byte string. -/
def YQLValue.decimal_value : YQLValuePB → Checked (List Nat)
  | .decimal_value bs => .ok bs
  | _ => .checkFailed

/-- `YQLValue::uuid_value(v)`: `CHECK(v.has_uuid_value())`, then
`CHECK_OK(uuid.FromBytes(...))` and return the UUID. `Uuid::FromBytes` is
modelled from the spec (not under src/): a UUID is a 128-bit (16-byte)
value, so decoding fails on any other payload length. -/
def YQLValue.uuid_value : YQLValuePB → Checked (List Nat)
  | .uuid_value bs => if bs.length = 16 then .ok bs else .checkFailed
  | _ => .checkFailed

/-- `YQLValue::inetaddress_value(v)`: `CHECK(v.has_inetaddress_value())`,
then `CHECK_OK(addr.FromBytes(...))` and return the address.
`InetAddress::FromBytes` is modelled from the spec (not under src/): the
canonical encoding is 4 bytes (IPv4) or 16 bytes (IPv6), so decoding fails
on any other payload length. -/
def YQLValue.inetaddress_value : YQLValuePB → Checked (List Nat)
  | .inetaddress_value bs =>
      if bs.length = 4 then .ok bs
      else if bs.length = 16 then .ok bs
      else .checkFailed
  | _ => .checkFailed

/-- Modelled from the spec: `Uuid` is a 128-bit (16-byte) value; its version
field is the high nibble of byte 6 and a time-based UUID has version 1.
(`yb/util/uuid.h` is not under src/.) -/
def Uuid.version (u : List Nat) : Nat := u.getD 6 0 / 16

/-- Modelled from the spec: `Uuid::IsTimeUuid()` returns OK when the version
field indicates a time-based UUID, and an `InvalidArgument` condition
otherwise. (`yb/util/uuid.h` is not under src/.) -/
def Uuid.IsTimeUuid (u : List Nat) : Except RStatus Unit :=
  if Uuid.version u = 1 then .ok () else .error .invalidArgument

/-- `YQLValue::timeuuid_value(v)`: `CHECK(v.has_timeuuid_value())`,
`CHECK_OK(timeuuid.FromBytes(...))`, `CHECK_OK(timeuuid.IsTimeUuid())`,
then return the UUID. -/
def YQLValue.timeuuid_value : YQLValuePB → Checked (List Nat)
  | .timeuuid_value bs =>
      match Uuid.IsTimeUuid bs with
      | .ok _ => .ok bs
      | .error _ => .checkFailed
  | _ => .checkFailed

/-- Outcome of a setter guarded by `CHECK_OK`: either the updated record, or
the process aborted on the `CHECK_OK`, carrying the status that tripped it. -/
inductive SetResult where
  | ok (v : YQLValuePB)
  | checkFailed (s : RStatus)

/-- `YQLValue::set_timeuuid_value(val, v)`: `CHECK_OK(val.IsTimeUuid())`, then
store the UUID bytes in the record. The failure path is a hard assertion
(process abort), not a returned status. -/
def YQLValue.set_timeuuid_value (val : List Nat) (_ : YQLValuePB) : SetResult :=
  match Uuid.IsTimeUuid val with
  | .error s => .checkFailed s
  | .ok _ => .ok (.timeuuid_value val)

/-- `YQLValue::set_map_value(v)`: `v->mutable_map_value()` — keep the existing
map payload if the oneof already holds one, otherwise clear the oneof and
allocate an empty map. -/
def YQLValue.set_map_value : YQLValuePB → YQLValuePB
  | .map_value ks vs => .map_value ks vs
  | _ => .map_value [] []

/-- `YQLValue::set_set_value(v)`: `v->mutable_set_value()`. -/
def YQLValue.set_set_value : YQLValuePB → YQLValuePB
  | .set_value es => .set_value es
  | _ => .set_value []

/-- `YQLValue::set_list_value(v)`: `v->mutable_list_value()`. -/
def YQLValue.set_list_value : YQLValuePB → YQLValuePB
  | .list_value es => .list_value es
  | _ => .list_value []

/-- `YQLValue::add_map_key(v)`: `v->mutable_map_value()->add_keys()` — append
one fresh (null) record to the key sequence, switching the oneof to map (with
empty backing storage) first if needed. -/
def YQLValue.add_map_key : YQLValuePB → YQLValuePB
  | .map_value ks vs => .map_value (ks ++ [.valueNotSet]) vs
  | _ => .map_value [.valueNotSet] []

/-- `YQLValue::add_map_value(v)`: `v->mutable_map_value()->add_values()`. -/
def YQLValue.add_map_value : YQLValuePB → YQLValuePB
  | .map_value ks vs => .map_value ks (vs ++ [.valueNotSet])
  | _ => .map_value [] [.valueNotSet]

/-- `YQLValue::add_set_elem(v)`: `v->mutable_set_value()->add_elems()`. -/
def YQLValue.add_set_elem : YQLValuePB → YQLValuePB
  | .set_value es => .set_value (es ++ [.valueNotSet])
  | _ => .set_value [.valueNotSet]

/-- `YQLValue::add_list_elem(v)`: `v->mutable_list_value()->add_elems()`. -/
def YQLValue.add_list_elem : YQLValuePB → YQLValuePB
  | .list_value es => .list_value (es ++ [.valueNotSet])
  | _ => .list_value [.valueNotSet]

/-- One `add_map_key()` followed by one `add_map_value()` (a paired append). -/
def YQLValue.addMapPair (v : YQLValuePB) : YQLValuePB :=
  YQLValue.add_map_value (YQLValue.add_map_key v)

/-- The key/value sequence lengths of a map record (both 0 for non-maps). -/
def YQLValue.mapLens : YQLValuePB → Nat × Nat
  | .map_value ks vs => (ks.length, vs.length)
  | _ => (0, 0)

/-- `YQLValueWithPB::Assign(other)`: `CopyFrom(other)` — the destination
becomes a copy of the source; the source operand is untouched. The result is
the new destination record. -/
def YQLValue.Assign (_dest src : YQLValuePB) : YQLValuePB := src

/-- `YQLValueWithPB::AssignMove(other)`: `Swap(&other)` — the two records
exchange their contents. The result is the pair (new destination, what the
moved-from source holds afterwards). -/
def YQLValue.AssignMove (dest src : YQLValuePB) : YQLValuePB × YQLValuePB :=
  (src, dest)

/-- `YQLValue::BothNotNull(lhs, rhs)`. -/
def YQLValue.BothNotNull (l r : YQLValuePB) : Bool :=
  !YQLValue.IsNull l && !YQLValue.IsNull r

/-- `YQLValue::EitherIsNull(lhs, rhs)`. -/
def YQLValue.EitherIsNull (l r : YQLValuePB) : Bool :=
  YQLValue.IsNull l || YQLValue.IsNull r

/-- `YQLValue::Comparable(lhs, rhs)`: tags match or either is null. -/
def YQLValue.Comparable (l r : YQLValuePB) : Bool :=
  l.value_case == r.value_case || YQLValue.EitherIsNull l r

/-- Three-way comparison of integers. -/
def cmpInt (a b : Int) : Int := if a < b then -1 else if a = b then 0 else 1

/-- Lexicographic three-way comparison of byte strings. -/
def cmpBytes : List Nat → List Nat → Int
  | [], [] => 0
  | [], _ :: _ => -1
  | _ :: _, [] => 1
  | a :: as, b :: bs => if a < b then -1 else if b < a then 1 else cmpBytes as bs

/-- Modelled from the spec: `YQLValue::CompareTo(lhs, rhs)` (its body lives in
`yql_value.cc`, not under src/) — natural numeric/lexicographic order per
scalar tag; collections compare only for equality at this layer. Its exact
result is immaterial to the null-semantics claims, which are decided by the
`BothNotNull` guard in the header. -/
def YQLValue.CompareTo (l r : YQLValuePB) : Int :=
  match l, r with
  | .int8_value a, .int8_value b => cmpInt a b
  | .int16_value a, .int16_value b => cmpInt a b
  | .int32_value a, .int32_value b => cmpInt a b
  | .int64_value a, .int64_value b => cmpInt a b
  | .timestamp_value a, .timestamp_value b => cmpInt a b
  | .bool_value a, .bool_value b => cmpInt (cond a 1 0) (cond b 1 0)
  | .string_value a, .string_value b => cmpBytes a b
  | .binary_value a, .binary_value b => cmpBytes a b
  | .decimal_value a, .decimal_value b => cmpBytes a b
  | .inetaddress_value a, .inetaddress_value b => cmpBytes a b
  | .uuid_value a, .uuid_value b => cmpBytes a b
  | .timeuuid_value a, .timeuuid_value b => cmpBytes a b
  | .float_value a, .float_value b => cmpInt a b
  | .double_value a, .double_value b => cmpInt a b
  | _, _ => 0

/-- `operator<`: `BothNotNull(v) && CompareTo(v) < 0`. -/
def YQLValue.lt (a b : YQLValuePB) : Bool :=
  YQLValue.BothNotNull a b && decide (YQLValue.CompareTo a b < 0)

/-- `operator>`: `BothNotNull(v) && CompareTo(v) > 0`. -/
def YQLValue.gt (a b : YQLValuePB) : Bool :=
  YQLValue.BothNotNull a b && decide (YQLValue.CompareTo a b > 0)

/-- `operator<=`: `BothNotNull(v) && CompareTo(v) <= 0`. -/
def YQLValue.le (a b : YQLValuePB) : Bool :=
  YQLValue.BothNotNull a b && decide (YQLValue.CompareTo a b ≤ 0)

/-- `operator>=`: `BothNotNull(v) && CompareTo(v) >= 0`. -/
def YQLValue.ge (a b : YQLValuePB) : Bool :=
  YQLValue.BothNotNull a b && decide (YQLValue.CompareTo a b ≥ 0)

/-- `operator==`: `BothNotNull(v) && CompareTo(v) == 0`. -/
def YQLValue.eq (a b : YQLValuePB) : Bool :=
  YQLValue.BothNotNull a b && decide (YQLValue.CompareTo a b = 0)

/-- `operator!=`: `BothNotNull(v) && CompareTo(v) != 0`. -/
def YQLValue.ne (a b : YQLValuePB) : Bool :=
  YQLValue.BothNotNull a b && decide (YQLValue.CompareTo a b ≠ 0)

/-- The logical scalar data types of the wire codec. -/
inductive DataType where
  | int8
  | int16
  | int32
  | int64
  | float
  | double
  | decimal
  | bool
  | string
  | timestamp
  | binary
  | inet
  | uuid
  | timeuuid
deriving DecidableEq, Repr

/-- A column of a schema: its name and declared data type. -/
structure ColumnSchema where
  name : String
  dtype : DataType
deriving DecidableEq, Repr

/-- `Schema::kColumnNotFound`. -/
def kColumnNotFound : Int := -1

/-- Modelled from the spec: `Schema::find_column(name)` (the schema class is
not under src/) — the index of the first column bearing the name, or
`kColumnNotFound` when the name is absent. -/
def find_column : List ColumnSchema → String → Int
  | [], _ => kColumnNotFound
  | c :: rest, n =>
      if c.name = n then 0
      else
        let r := find_column rest n
        if r = kColumnNotFound then kColumnNotFound else r + 1

/-- `YQLVirtualTable::SetColumnValue(col_name, value, row)`: look the column
name up in the schema; if absent return `NotFound` (leaving the row as it
was), otherwise write `util::GetValue(value, data_type)` into the row cell at
the found column index and return OK with the updated row. `util::GetValue`
(not under src/) is abstracted as the `getValue` argument converting the typed
value for the column's declared data type. -/
def SetColumnValue {α : Type} (schema : List ColumnSchema)
    (getValue : α → DataType → YQLValuePB) (col_name : String) (value : α)
    (row : List YQLValuePB) : Except RStatus (List YQLValuePB) :=
  let column_index := find_column schema col_name
  if column_index = kColumnNotFound then
    .error .notFound
  else
    let data_type := (schema.getD column_index.toNat ⟨col_name, DataType.int8⟩).dtype
    .ok (row.set column_index.toNat (getValue value data_type))

/-! ## Wire codec

`Serialize`/`Deserialize` bodies live in `yql_value.cc`, which is not under
src/; the codec below is modelled from the spec's encoding rules (network
byte order; fixed-width numerics at their natural width with no length
header; text/binary/decimal/inet behind a 4-byte signed length header, a
negative header denoting null; UUIDs as 16 raw bytes; collections as a 4-byte
count followed by elements, each element behind its own 4-byte length
header). -/

/-- Big-endian bytes of `n % 256 ^ w`, exactly `w` bytes. -/
def natbe : Nat → Nat → List Nat
  | 0, _ => []
  | w + 1, n => natbe w (n / 256) ++ [n % 256]

/-- Big-endian (network-order) value of a byte string. -/
def bytesToNat (bs : List Nat) : Nat := bs.foldl (fun a b => a * 256 + b) 0

/-- Big-endian two's-complement bytes of an integer at width `w`. -/
def intbe (w : Nat) (n : Int) : List Nat :=
  natbe w (n % ((256 ^ w : Nat) : Int)).toNat

/-- Reinterpret a `w`-byte big-endian value as a signed (two's-complement)
integer. -/
def toSigned (w : Nat) (n : Nat) : Int :=
  if 2 * n < 256 ^ w then (n : Int) else (n : Int) - ((256 ^ w : Nat) : Int)

/-- A 4-byte signed big-endian quantity (the CQL length/count header). -/
def int32be (n : Int) : List Nat := intbe 4 n

/-- The encoding of null: a single negative 4-byte length header. -/
def cqlNull : List Nat := int32be (-1)

/-- Put a byte string behind its 4-byte length header. -/
def cqlFrame (bs : List Nat) : List Nat := int32be bs.length ++ bs

/-- Data types carried behind a length header on the wire (as opposed to
fixed-width ones encoded at their natural width with no header). -/
def isVarLen : DataType → Bool
  | .decimal | .string | .binary | .inet => true
  | _ => false

/-- Natural byte width of the fixed-width data types. -/
def widthOf : DataType → Nat
  | .int8 => 1
  | .int16 => 2
  | .int32 => 4
  | .int64 => 8
  | .float => 4
  | .double => 8
  | .bool => 1
  | .timestamp => 8
  | .uuid => 16
  | .timeuuid => 16
  | _ => 0

/-- A logical type: a scalar data type, or a collection carrying its element
logical types out-of-band (map threads a key type and a value type). -/
inductive YQLType where
  | scalar (t : DataType)
  | list (elem : YQLType)
  | set (elem : YQLType)
  | map (key : YQLType) (value : YQLType)

/-- Whether the top-level encoding of the type starts with a 4-byte
length/count header — equivalently, whether a null of this type can be
encoded (as a negative header). Fixed-width scalars have no header and must
never be asked to serialize a null. -/
def topHasLen : YQLType → Bool
  | .scalar dt => isVarLen dt
  | _ => true

/-- The unframed payload bytes of a non-null scalar of the given data type
(`none` on a tag mismatch). -/
def scalarBody (dt : DataType) (v : YQLValuePB) : Option (List Nat) :=
  match dt, v with
  | .int8, .int8_value n => some (intbe 1 n)
  | .int16, .int16_value n => some (intbe 2 n)
  | .int32, .int32_value n => some (intbe 4 n)
  | .int64, .int64_value n => some (intbe 8 n)
  | .float, .float_value b => some (natbe 4 b)
  | .double, .double_value b => some (natbe 8 b)
  | .bool, .bool_value b => some [cond b 1 0]
  | .timestamp, .timestamp_value ms => some (intbe 8 ms)
  | .uuid, .uuid_value bs => some bs
  | .timeuuid, .timeuuid_value bs => some bs
  | .decimal, .decimal_value bs => some bs
  | .string, .string_value bs => some bs
  | .binary, .binary_value bs => some bs
  | .inet, .inetaddress_value bs => some bs
  | _, _ => none

/-- Encode one collection element: null becomes a negative length header;
otherwise the element body produced by `f` goes behind its length header. -/
def elemSer (f : YQLValuePB → Option (List Nat)) (e : YQLValuePB) :
    Option (List Nat) :=
  if YQLValue.IsNull e then some cqlNull
  else
    match f e with
    | none => none
    | some bs => some (cqlFrame bs)

/-- Concatenate the encodings of a sequence of elements. -/
def seqSer (g : YQLValuePB → Option (List Nat)) :
    List YQLValuePB → Option (List Nat)
  | [] => some []
  | e :: es =>
      match g e, seqSer g es with
      | some b, some bs => some (b ++ bs)
      | _, _ => none

/-- Concatenate the interleaved encodings of paired key/value sequences. -/
def pairSer (gk gv : YQLValuePB → Option (List Nat)) :
    List YQLValuePB → List YQLValuePB → Option (List Nat)
  | [], [] => some []
  | k :: ks, v :: vs =>
      match gk k, gv v, pairSer gk gv ks vs with
      | some a, some b, some bs => some (a ++ b ++ bs)
      | _, _, _ => none
  | _, _ => none

/-- The unframed encoded body of a non-null value at the given logical type:
scalar payload bytes, or a 4-byte pair/element count followed by the framed
elements for collections (nested collections recurse). -/
def SerializeBody : YQLType → YQLValuePB → Option (List Nat)
  | .scalar dt => fun v => scalarBody dt v
  | .list te => fun v =>
      match v with
      | .list_value es =>
          match seqSer (elemSer (SerializeBody te)) es with
          | none => none
          | some bs => some (int32be es.length ++ bs)
      | _ => none
  | .set te => fun v =>
      match v with
      | .set_value es =>
          match seqSer (elemSer (SerializeBody te)) es with
          | none => none
          | some bs => some (int32be es.length ++ bs)
      | _ => none
  | .map tk tv => fun v =>
      match v with
      | .map_value ks vs =>
          match pairSer (elemSer (SerializeBody tk)) (elemSer (SerializeBody tv)) ks vs with
          | none => none
          | some bs => some (int32be ks.length ++ bs)
      | _ => none

/-- `YQLValue::Serialize(yql_type, client, buffer)`: the bytes appended for a
value of the given logical type. Null encodes as a single negative 4-byte
length header when the type has a header; a fixed-width scalar must never be
asked to serialize a null (`none`). The client protocol version affects only
which types are legal, never the byte layout, so it is passed through
unused. -/
def Serialize (t : YQLType) (_client : Nat) (v : YQLValuePB) :
    Option (List Nat) :=
  if YQLValue.IsNull v then
    if topHasLen t then some cqlNull else none
  else
    match t with
    | .scalar dt =>
        match scalarBody dt v with
        | none => none
        | some bs => some (if isVarLen dt then cqlFrame bs else bs)
    | _ => SerializeBody t v

/-- Take `n` bytes off the cursor; `Corruption` if fewer remain. -/
def readN (n : Nat) (data : List Nat) :
    Except RStatus (List Nat × List Nat) :=
  if data.length < n then .error .corruption
  else .ok (data.take n, data.drop n)

/-- Read a 4-byte signed big-endian quantity off the cursor. -/
def readInt32 (data : List Nat) : Except RStatus (Int × List Nat) :=
  match readN 4 data with
  | .error e => .error e
  | .ok (bs, rest) => .ok (toSigned 4 (bytesToNat bs), rest)

/-- Modelled from the spec: `CQLDecodeNum` (not under src/) — read exactly
`len` bytes and convert them from network byte order; `Corruption` if fewer
than `len` bytes remain. -/
def CQLDecodeNum (len : Nat) (data : List Nat) :
    Except RStatus (Nat × List Nat) :=
  match readN len data with
  | .error e => .error e
  | .ok (bs, rest) => .ok (bytesToNat bs, rest)

/-- `YQLValue::CQLDeserializeNum(len, converter, setter, data)`: decode a
fixed-width number of `len` bytes via `CQLDecodeNum` and hand the narrowed
signed value to the setter. -/
def CQLDeserializeNum (len : Nat) (setter : Int → YQLValuePB)
    (data : List Nat) : Except RStatus (YQLValuePB × List Nat) :=
  match CQLDecodeNum len data with
  | .error e => .error e
  | .ok (n, rest) => .ok (setter (toSigned len n), rest)

/-- Build a variable-length scalar record from its framed payload bytes; an
inet payload must be 4 or 16 bytes (`InvalidArgument` otherwise). -/
def mkVarScalar (dt : DataType) (bs : List Nat) :
    Except RStatus YQLValuePB :=
  match dt with
  | .string => .ok (.string_value bs)
  | .binary => .ok (.binary_value bs)
  | .decimal => .ok (.decimal_value bs)
  | .inet =>
      if bs.length = 4 then .ok (.inetaddress_value bs)
      else if bs.length = 16 then .ok (.inetaddress_value bs)
      else .error .invalidArgument
  | _ => .error .corruption

/-- Build a fixed-width scalar record from its `widthOf dt` payload bytes; a
time-UUID whose version field is not time-based fails the type-specific
decode check (`Corruption`). -/
def mkFixedScalar (dt : DataType) (bs : List Nat) :
    Except RStatus YQLValuePB :=
  match dt with
  | .int8 => .ok (.int8_value (toSigned 1 (bytesToNat bs)))
  | .int16 => .ok (.int16_value (toSigned 2 (bytesToNat bs)))
  | .int32 => .ok (.int32_value (toSigned 4 (bytesToNat bs)))
  | .int64 => .ok (.int64_value (toSigned 8 (bytesToNat bs)))
  | .float => .ok (.float_value (bytesToNat bs))
  | .double => .ok (.double_value (bytesToNat bs))
  | .bool => .ok (.bool_value (decide (bs.getD 0 0 ≠ 0)))
  | .timestamp => .ok (.timestamp_value (toSigned 8 (bytesToNat bs)))
  | .uuid => .ok (.uuid_value bs)
  | .timeuuid =>
      if Uuid.version bs = 1 then .ok (.timeuuid_value bs)
      else .error .corruption
  | _ => .error .corruption

/-- Run a body decoder on a framed chunk, requiring it to consume the chunk
exactly; the suffix `rest` is what follows the frame. -/
def runExact (body : List Nat → Except RStatus (YQLValuePB × List Nat))
    (chunk rest : List Nat) : Except RStatus (YQLValuePB × List Nat) :=
  match body chunk with
  | .error e => .error e
  | .ok (v, []) => .ok (v, rest)
  | .ok (_, _ :: _) => .error .corruption

/-- Decode one collection element: read its 4-byte length header (negative
means a null element), take that many bytes, and decode them — directly for a
variable-length scalar, through the body decoder otherwise. -/
def elemDe (t : YQLType)
    (body : List Nat → Except RStatus (YQLValuePB × List Nat))
    (data : List Nat) : Except RStatus (YQLValuePB × List Nat) :=
  match readInt32 data with
  | .error e => .error e
  | .ok (len, rest) =>
      if len < 0 then .ok (.valueNotSet, rest)
      else
        match readN len.toNat rest with
        | .error e => .error e
        | .ok (chunk, rest2) =>
            match t with
            | .scalar dt =>
                if isVarLen dt then
                  match mkVarScalar dt chunk with
                  | .error e => .error e
                  | .ok v => .ok (v, rest2)
                else runExact body chunk rest2
            | _ => runExact body chunk rest2

/-- Decode `n` consecutive elements with the element decoder `g`. -/
def seqDe (g : List Nat → Except RStatus (YQLValuePB × List Nat)) :
    Nat → List Nat → Except RStatus (List YQLValuePB × List Nat)
  | 0, data => .ok ([], data)
  | n + 1, data =>
      match g data with
      | .error e => .error e
      | .ok (v, rest) =>
          match seqDe g n rest with
          | .error e => .error e
          | .ok (vs, rest2) => .ok (v :: vs, rest2)

/-- Decode `n` consecutive key/value pairs with the two element decoders. -/
def pairDe (gk gv : List Nat → Except RStatus (YQLValuePB × List Nat)) :
    Nat → List Nat →
    Except RStatus ((List YQLValuePB × List YQLValuePB) × List Nat)
  | 0, data => .ok (([], []), data)
  | n + 1, data =>
      match gk data with
      | .error e => .error e
      | .ok (k, rest) =>
          match gv rest with
          | .error e => .error e
          | .ok (v, rest2) =>
              match pairDe gk gv n rest2 with
              | .error e => .error e
              | .ok ((ks, vs), rest3) => .ok ((k :: ks, v :: vs), rest3)

/-- Decode the unframed body of a value at the given logical type: the fixed
payload width for a fixed-width scalar, or a 4-byte count (negative meaning
null) followed by that many framed elements for a collection. Variable-length
scalars are only ever decoded through a frame, never through this body
decoder. -/
def DeserializeBody : YQLType → List Nat →
    Except RStatus (YQLValuePB × List Nat)
  | .scalar dt => fun data =>
      if isVarLen dt then .error .corruption
      else
        match readN (widthOf dt) data with
        | .error e => .error e
        | .ok (bs, rest) =>
            match mkFixedScalar dt bs with
            | .error e => .error e
            | .ok v => .ok (v, rest)
  | .list te => fun data =>
      match readInt32 data with
      | .error e => .error e
      | .ok (n, rest) =>
          if n < 0 then .ok (.valueNotSet, rest)
          else
            match seqDe (elemDe te (DeserializeBody te)) n.toNat rest with
            | .error e => .error e
            | .ok (es, rest2) => .ok (.list_value es, rest2)
  | .set te => fun data =>
      match readInt32 data with
      | .error e => .error e
      | .ok (n, rest) =>
          if n < 0 then .ok (.valueNotSet, rest)
          else
            match seqDe (elemDe te (DeserializeBody te)) n.toNat rest with
            | .error e => .error e
            | .ok (es, rest2) => .ok (.set_value es, rest2)
  | .map tk tv => fun data =>
      match readInt32 data with
      | .error e => .error e
      | .ok (n, rest) =>
          if n < 0 then .ok (.valueNotSet, rest)
          else
            match pairDe (elemDe tk (DeserializeBody tk))
                (elemDe tv (DeserializeBody tv)) n.toNat rest with
            | .error e => .error e
            | .ok ((ks, vs), rest2) => .ok (.map_value ks vs, rest2)

/-- `YQLValue::Deserialize(yql_type, client, data)`: consume the encoding of
one value off the cursor, returning the populated record and the remaining
bytes; `Corruption` when a declared length exceeds the remaining input or a
type-specific decode check fails. A negative length header yields a null
record without reading further bytes. -/
def Deserialize (t : YQLType) (_client : Nat) (data : List Nat) :
    Except RStatus (YQLValuePB × List Nat) :=
  match t with
  | .scalar dt =>
      if isVarLen dt then
        match readInt32 data with
        | .error e => .error e
        | .ok (len, rest) =>
            if len < 0 then .ok (.valueNotSet, rest)
            else
              match readN len.toNat rest with
              | .error e => .error e
              | .ok (chunk, rest2) =>
                  match mkVarScalar dt chunk with
                  | .error e => .error e
                  | .ok v => .ok (v, rest2)
      else DeserializeBody (.scalar dt) data
  | _ => DeserializeBody t data

/-- A byte is below 256. -/
def byteOk (b : Nat) : Bool := b < 256

/-- Well-typedness of a scalar record payload for a data type: the payload
tag matches and the payload is within the type's machine range (null is
well-typed at every type). -/
def scalarWT (dt : DataType) (v : YQLValuePB) : Bool :=
  match dt, v with
  | _, .valueNotSet => true
  | .int8, .int8_value n => decide (-128 ≤ n ∧ n < 128)
  | .int16, .int16_value n => decide (-32768 ≤ n ∧ n < 32768)
  | .int32, .int32_value n => decide (-(2 ^ 31) ≤ n ∧ n < 2 ^ 31)
  | .int64, .int64_value n => decide (-(2 ^ 63) ≤ n ∧ n < 2 ^ 63)
  | .float, .float_value b => decide (b < 2 ^ 32)
  | .double, .double_value b => decide (b < 2 ^ 64)
  | .bool, .bool_value _ => true
  | .timestamp, .timestamp_value n => decide (-(2 ^ 63) ≤ n ∧ n < 2 ^ 63)
  | .uuid, .uuid_value bs => decide (bs.length = 16) && bs.all byteOk
  | .timeuuid, .timeuuid_value bs =>
      decide (bs.length = 16) && bs.all byteOk && decide (Uuid.version bs = 1)
  | .decimal, .decimal_value bs => bs.all byteOk && decide (bs.length < 2 ^ 31)
  | .string, .string_value bs => bs.all byteOk && decide (bs.length < 2 ^ 31)
  | .binary, .binary_value bs => bs.all byteOk && decide (bs.length < 2 ^ 31)
  | .inet, .inetaddress_value bs =>
      bs.all byteOk && (decide (bs.length = 4) || decide (bs.length = 16))
  | _, _ => false

/-- Well-typedness of a record at a logical type: scalar payloads in range,
collection elements recursively well-typed, element counts within the 4-byte
signed count header, and map key/value sequences of equal length. -/
def wellTyped : YQLType → YQLValuePB → Bool
  | .scalar dt => fun v => scalarWT dt v
  | .list te => fun v =>
      match v with
      | .valueNotSet => true
      | .list_value es =>
          es.all (fun e => wellTyped te e) && decide (es.length < 2 ^ 31)
      | _ => false
  | .set te => fun v =>
      match v with
      | .valueNotSet => true
      | .set_value es =>
          es.all (fun e => wellTyped te e) && decide (es.length < 2 ^ 31)
      | _ => false
  | .map tk tv => fun v =>
      match v with
      | .valueNotSet => true
      | .map_value ks vs =>
          ks.all (fun k => wellTyped tk k) && vs.all (fun x => wellTyped tv x) &&
          decide (ks.length = vs.length) && decide (ks.length < 2 ^ 31)
      | _ => false

/-- Every (transitive) collection element's encoded body fits the 4-byte
signed length header of its element frame. -/
def framesOk : YQLType → YQLValuePB → Bool
  | .scalar _ => fun _ => true
  | .list te => fun v =>
      match v with
      | .list_value es =>
          es.all (fun e =>
            framesOk te e &&
            decide (((SerializeBody te e).getD []).length < 2 ^ 31))
      | _ => true
  | .set te => fun v =>
      match v with
      | .set_value es =>
          es.all (fun e =>
            framesOk te e &&
            decide (((SerializeBody te e).getD []).length < 2 ^ 31))
      | _ => true
  | .map tk tv => fun v =>
      match v with
      | .map_value ks vs =>
          ks.all (fun k =>
            framesOk tk k &&
            decide (((SerializeBody tk k).getD []).length < 2 ^ 31)) &&
          vs.all (fun x =>
            framesOk tv x &&
            decide (((SerializeBody tv x).getD []).length < 2 ^ 31))
      | _ => true

/-- Whether the logical type is a variable-length scalar. -/
def isVarScalarT : YQLType → Bool
  | .scalar dt => isVarLen dt
  | _ => false

/-- The scalar data type of a scalar logical type (dummy for collections). -/
def scalarOfT : YQLType → DataType
  | .scalar dt => dt
  | _ => .int8

/-- Round-trip property of the unframed body codec at a logical type: every
well-typed non-null value serializes to a body that decodes back to the same
value, consuming exactly the produced bytes (via the body decoder for
fixed-width scalars and collections, via the framed-payload builder for
variable-length scalars). -/
def BodyRound (t : YQLType) : Prop :=
  ∀ v : YQLValuePB, wellTyped t v = true → framesOk t v = true →
    YQLValue.IsNull v = false →
    ∃ bs, SerializeBody t v = some bs ∧
      (isVarScalarT t = false →
        ∀ rest, DeserializeBody t (bs ++ rest) = .ok (v, rest)) ∧
      (isVarScalarT t = true →
        bs.length < 2 ^ 31 ∧ mkVarScalar (scalarOfT t) bs = .ok v)

/-- Round-trip property of the framed element codec at a logical type
(null elements included). -/
def ElemRound (t : YQLType) : Prop :=
  ∀ e : YQLValuePB, wellTyped t e = true → framesOk t e = true →
    ((SerializeBody t e).getD []).length < 2 ^ 31 →
    ∃ b, elemSer (SerializeBody t) e = some b ∧
      ∀ rest, elemDe t (DeserializeBody t) (b ++ rest) = .ok (e, rest)

/-! ## Helper lemmas -/

theorem natbe_length (w : Nat) : ∀ n, (natbe w n).length = w := by
  induction w with
  | zero => intro n; rfl
  | succ m ih => intro n; simp [natbe, ih]

theorem bytesToNat_concat (xs : List Nat) (b : Nat) :
    bytesToNat (xs ++ [b]) = 256 * bytesToNat xs + b := by
  simp [bytesToNat, List.foldl_append]
  ring

theorem mod_base_succ (w n : Nat) :
    n % 256 ^ (w + 1) = 256 * (n / 256 % 256 ^ w) + n % 256 := by
  have hpow : 0 < 256 ^ w := pow_pos (by norm_num) w
  have h1 : n = 256 ^ (w + 1) * (n / 256 / 256 ^ w) +
      (256 * (n / 256 % 256 ^ w) + n % 256) := by
    have ha : 256 * (n / 256) + n % 256 = n := Nat.div_add_mod n 256
    have hb : 256 ^ w * (n / 256 / 256 ^ w) + n / 256 % 256 ^ w = n / 256 :=
      Nat.div_add_mod (n / 256) (256 ^ w)
    calc n = 256 * (n / 256) + n % 256 := ha.symm
      _ = 256 * (256 ^ w * (n / 256 / 256 ^ w) + n / 256 % 256 ^ w) + n % 256 := by
          rw [hb]
      _ = 256 ^ (w + 1) * (n / 256 / 256 ^ w) +
          (256 * (n / 256 % 256 ^ w) + n % 256) := by ring
  have h2 : 256 * (n / 256 % 256 ^ w) + n % 256 < 256 ^ (w + 1) := by
    have hm : n / 256 % 256 ^ w < 256 ^ w := Nat.mod_lt _ hpow
    have hr : n % 256 < 256 := Nat.mod_lt _ (by norm_num)
    have hexp : 256 ^ (w + 1) = 256 * 256 ^ w := by ring
    omega
  conv_lhs => rw [h1]
  rw [Nat.mul_add_mod]
  exact Nat.mod_eq_of_lt h2

theorem bytesToNat_natbe (w : Nat) : ∀ n, bytesToNat (natbe w n) = n % 256 ^ w := by
  induction w with
  | zero => intro n; simp [natbe, bytesToNat, Nat.mod_one]
  | succ m ih =>
      intro n
      show bytesToNat (natbe m (n / 256) ++ [n % 256]) = n % 256 ^ (m + 1)
      rw [bytesToNat_concat, ih, mod_base_succ]

theorem intbe_length (w : Nat) (n : Int) : (intbe w n).length = w :=
  natbe_length w _

theorem toSigned_intbe (w : Nat) (m : Int)
    (hlo : -(((256 ^ w : Nat) : Int)) ≤ 2 * m)
    (hhi : 2 * m < ((256 ^ w : Nat) : Int)) :
    toSigned w (bytesToNat (intbe w m)) = m := by
  have hNpos : 0 < 256 ^ w := pow_pos (by norm_num) w
  have hPpos : (0 : Int) < ((256 ^ w : Nat) : Int) := by exact_mod_cast hNpos
  have h1 : 0 ≤ m % ((256 ^ w : Nat) : Int) := Int.emod_nonneg m (ne_of_gt hPpos)
  have h2 : m % ((256 ^ w : Nat) : Int) < ((256 ^ w : Nat) : Int) :=
    Int.emod_lt_of_pos m hPpos
  have h4 : bytesToNat (intbe w m) = (m % ((256 ^ w : Nat) : Int)).toNat := by
    show bytesToNat (natbe w (m % ((256 ^ w : Nat) : Int)).toNat) = _
    rw [bytesToNat_natbe]
    exact Nat.mod_eq_of_lt (by omega)
  by_cases hm : 0 ≤ m
  · have h5 : m % ((256 ^ w : Nat) : Int) = m :=
      Int.emod_eq_of_lt hm (by omega)
    rw [h4, h5]
    simp only [toSigned]
    rw [if_pos (by omega)]
    omega
  · push_neg at hm
    have h5 : m % ((256 ^ w : Nat) : Int) = m + ((256 ^ w : Nat) : Int) := by
      have hq := Int.add_mul_emod_self_left m ((256 ^ w : Nat) : Int) 1
      rw [mul_one] at hq
      rw [← hq]
      exact Int.emod_eq_of_lt (by omega) (by omega)
    rw [h4, h5]
    simp only [toSigned]
    rw [if_neg (by omega)]
    omega

theorem readN_exact (bs rest : List Nat) :
    readN bs.length (bs ++ rest) = .ok (bs, rest) := by
  unfold readN
  rw [if_neg (by simp)]
  rw [List.take_left, List.drop_left]

theorem readN_short (n : Nat) (data : List Nat) (h : data.length < n) :
    readN n data = .error .corruption := by
  unfold readN
  rw [if_pos h]

theorem readInt32_int32be (m : Int) (rest : List Nat)
    (hlo : -((2 : Int) ^ 31) ≤ m) (hhi : m < (2 : Int) ^ 31) :
    readInt32 (int32be m ++ rest) = .ok (m, rest) := by
  have hlen : (int32be m).length = 4 := intbe_length 4 m
  have h1 : readN 4 (int32be m ++ rest) = .ok (int32be m, rest) := by
    rw [← hlen]
    exact readN_exact (int32be m) rest
  have h2 : toSigned 4 (bytesToNat (int32be m)) = m := by
    apply toSigned_intbe 4 m
    · norm_num at hlo ⊢
      omega
    · norm_num at hhi ⊢
      omega
  simp [readInt32, h1, h2]

theorem readInt32_cqlNull (rest : List Nat) :
    readInt32 (cqlNull ++ rest) = .ok (-1, rest) :=
  readInt32_int32be (-1) rest (by norm_num) (by norm_num)

theorem readInt32_ofNat (n : Nat) (rest : List Nat) (h : n < 2 ^ 31) :
    readInt32 (int32be n ++ rest) = .ok ((n : Int), rest) := by
  apply readInt32_int32be
  · have : (0 : Int) ≤ (n : Int) := by positivity
    have hp : (0 : Int) < (2 : Int) ^ 31 := by norm_num
    omega
  · norm_num at h ⊢
    omega

theorem isNull_iff (v : YQLValuePB) :
    YQLValue.IsNull v = true ↔ v = .valueNotSet := by
  cases v <;> simp [YQLValue.IsNull, YQLValuePB.value_case]

theorem elemSer_null (f : YQLValuePB → Option (List Nat)) :
    elemSer f .valueNotSet = some cqlNull := rfl

theorem elemSer_some (f : YQLValuePB → Option (List Nat)) (e : YQLValuePB)
    (bs : List Nat) (hnf : YQLValue.IsNull e = false) (h : f e = some bs) :
    elemSer f e = some (cqlFrame bs) := by
  simp [elemSer, hnf, h]

theorem elemDe_null (t : YQLType)
    (body : List Nat → Except RStatus (YQLValuePB × List Nat))
    (rest : List Nat) :
    elemDe t body (cqlNull ++ rest) = .ok (.valueNotSet, rest) := by
  unfold elemDe
  rw [readInt32_cqlNull]
  norm_num

theorem cqlFrame_split (bs rest : List Nat) :
    cqlFrame bs ++ rest = int32be (bs.length : Int) ++ (bs ++ rest) := by
  simp [cqlFrame]

theorem elemDe_frame_var (dt : DataType) (hdt : isVarLen dt = true)
    (body : List Nat → Except RStatus (YQLValuePB × List Nat))
    (bs rest : List Nat) (hlen : bs.length < 2 ^ 31) (v : YQLValuePB)
    (hmk : mkVarScalar dt bs = .ok v) :
    elemDe (.scalar dt) body (cqlFrame bs ++ rest) = .ok (v, rest) := by
  unfold elemDe
  rw [cqlFrame_split, readInt32_ofNat _ _ hlen]
  simp [hdt, readN_exact bs rest, hmk]

theorem elemDe_frame_body (t : YQLType) (hns : isVarScalarT t = false)
    (body : List Nat → Except RStatus (YQLValuePB × List Nat))
    (bs rest : List Nat) (v : YQLValuePB) (hlen : bs.length < 2 ^ 31)
    (hbody : body bs = .ok (v, [])) :
    elemDe t body (cqlFrame bs ++ rest) = .ok (v, rest) := by
  unfold elemDe
  rw [cqlFrame_split, readInt32_ofNat _ _ hlen]
  cases t with
  | scalar dt =>
      have hdt : isVarLen dt = false := by simpa [isVarScalarT] using hns
      simp [hdt, readN_exact bs rest, runExact, hbody]
  | list te => simp [readN_exact bs rest, runExact, hbody]
  | set te => simp [readN_exact bs rest, runExact, hbody]
  | map tk tv => simp [readN_exact bs rest, runExact, hbody]

theorem seqRound (g : YQLValuePB → Option (List Nat))
    (d : List Nat → Except RStatus (YQLValuePB × List Nat)) :
    ∀ es : List YQLValuePB,
    (∀ e ∈ es, ∃ b, g e = some b ∧ ∀ r : List Nat, d (b ++ r) = .ok (e, r)) →
    ∃ bs, seqSer g es = some bs ∧
      ∀ rest : List Nat, seqDe d es.length (bs ++ rest) = .ok (es, rest) := by
  intro es
  induction es with
  | nil =>
      intro _
      exact ⟨[], rfl, fun rest => by simp [seqDe]⟩
  | cons e es ih =>
      intro h
      obtain ⟨bs, hbs, hde⟩ := ih (fun x hx => h x (by simp [hx]))
      obtain ⟨b, hb, hdb⟩ := h e (by simp)
      refine ⟨b ++ bs, by simp [seqSer, hb, hbs], ?_⟩
      intro rest
      have hassoc : (b ++ bs) ++ rest = b ++ (bs ++ rest) := by simp
      simp [List.length_cons, seqDe, hassoc, hdb (bs ++ rest), hde rest]

theorem pairRound (gk gv : YQLValuePB → Option (List Nat))
    (dk dv : List Nat → Except RStatus (YQLValuePB × List Nat)) :
    ∀ ks vs : List YQLValuePB, ks.length = vs.length →
    (∀ k ∈ ks, ∃ b, gk k = some b ∧ ∀ r : List Nat, dk (b ++ r) = .ok (k, r)) →
    (∀ v ∈ vs, ∃ b, gv v = some b ∧ ∀ r : List Nat, dv (b ++ r) = .ok (v, r)) →
    ∃ bs, pairSer gk gv ks vs = some bs ∧
      ∀ rest : List Nat, pairDe dk dv ks.length (bs ++ rest) = .ok ((ks, vs), rest) := by
  intro ks
  induction ks with
  | nil =>
      intro vs hlen _ _
      have hvs : vs = [] := by
        cases vs with
        | nil => rfl
        | cons x xs => simp at hlen
      subst hvs
      exact ⟨[], rfl, fun rest => by simp [pairDe]⟩
  | cons k ks ih =>
      intro vs hlen hk hv
      cases vs with
      | nil => simp at hlen
      | cons v vs =>
          have hlen' : ks.length = vs.length := by simpa using hlen
          obtain ⟨bs, hbs, hde⟩ := ih vs hlen'
            (fun x hx => hk x (by simp [hx]))
            (fun x hx => hv x (by simp [hx]))
          obtain ⟨bv, hbv, hdv⟩ := hv v (by simp)
          obtain ⟨bk, hbk, hdk⟩ := hk k (by simp)
          refine ⟨bk ++ bv ++ bs, by simp [pairSer, hbk, hbv, hbs], ?_⟩
          intro rest
          have hassoc : (bk ++ bv ++ bs) ++ rest = bk ++ (bv ++ (bs ++ rest)) := by
            simp
          simp [List.length_cons, pairDe, hassoc, hdk (bv ++ (bs ++ rest)),
            hdv (bs ++ rest), hde rest]

theorem elem_of_body (t : YQLType) (hB : BodyRound t) : ElemRound t := by
  intro e hwt hfr hlen
  by_cases hnull : YQLValue.IsNull e = true
  · have he : e = .valueNotSet := (isNull_iff e).mp hnull
    subst he
    exact ⟨cqlNull, elemSer_null _, fun rest => elemDe_null t _ rest⟩
  · have hnf : YQLValue.IsNull e = false := by simpa using hnull
    obtain ⟨bs, hser, hfix, hvar⟩ := hB e hwt hfr hnf
    have hlen' : bs.length < 2 ^ 31 := by
      rw [hser] at hlen
      simpa using hlen
    refine ⟨cqlFrame bs, elemSer_some _ e bs hnf hser, ?_⟩
    intro rest
    cases hvs : isVarScalarT t with
    | true =>
        obtain ⟨dt, hdt⟩ : ∃ dt, t = .scalar dt := by
          cases t with
          | scalar dt => exact ⟨dt, rfl⟩
          | list te => simp [isVarScalarT] at hvs
          | set te => simp [isVarScalarT] at hvs
          | map tk tv => simp [isVarScalarT] at hvs
        subst hdt
        have hdtv : isVarLen dt = true := by simpa [isVarScalarT] using hvs
        obtain ⟨_, hmk⟩ := hvar hvs
        have hsc : scalarOfT (.scalar dt) = dt := rfl
        rw [hsc] at hmk
        exact elemDe_frame_var dt hdtv _ bs rest hlen' e hmk
    | false =>
        have hbody : DeserializeBody t bs = .ok (e, []) := by
          have h := hfix hvs []
          simpa using h
        exact elemDe_frame_body t hvs _ bs rest e hlen' hbody

theorem find_column_of_absent (s : List ColumnSchema) (n : String)
    (h : ∀ c ∈ s, c.name ≠ n) : find_column s n = kColumnNotFound := by
  induction s with
  | nil => rfl
  | cons c rest ih =>
      have hc : c.name ≠ n := h c (by simp)
      have hr : find_column rest n = kColumnNotFound :=
        ih (fun x hx => h x (by simp [hx]))
      simp [find_column, hc, hr]

theorem find_column_of_first (s : List ColumnSchema) (n : String) :
    ∀ (i : Nat) (c : ColumnSchema), s[i]? = some c → c.name = n →
    (∀ (j : Nat) (cj : ColumnSchema), j < i → s[j]? = some cj → cj.name ≠ n) →
    find_column s n = (i : Int) := by
  induction s with
  | nil => intro i c hc _ _; simp at hc
  | cons c0 rest ih =>
      intro i c hc hn hfirst
      cases i with
      | zero =>
          simp at hc
          subst hc
          simp [find_column, hn]
      | succ k =>
          have h0 : c0.name ≠ n := hfirst 0 c0 (by omega) (by simp)
          have hrest : find_column rest n = (k : Int) :=
            ih k c (by simpa using hc) hn
              (fun j cj hj hg => hfirst (j + 1) cj (by omega) (by simpa using hg))
          have hne : (k : Int) ≠ kColumnNotFound := by
            simp only [kColumnNotFound]
            omega
          simp only [find_column, if_neg h0, hrest, if_neg hne]
          push_cast
          ring

theorem addMapPair_iterate (n : Nat) :
    ∀ (ks vs : List YQLValuePB),
    YQLValue.addMapPair^[n] (.map_value ks vs) =
      .map_value (ks ++ List.replicate n .valueNotSet)
        (vs ++ List.replicate n .valueNotSet) := by
  induction n with
  | zero => intro ks vs; simp
  | succ m ih =>
      intro ks vs
      rw [Function.iterate_succ_apply]
      have h1 : YQLValue.addMapPair (YQLValuePB.map_value ks vs) =
          .map_value (ks ++ [.valueNotSet]) (vs ++ [.valueNotSet]) := rfl
      rw [h1, ih]
      simp [List.replicate_succ]

theorem fixedDecode (dt : DataType) (bs rest : List Nat) (v : YQLValuePB)
    (hvl : isVarLen dt = false) (hw : bs.length = widthOf dt)
    (hmk : mkFixedScalar dt bs = .ok v) :
    DeserializeBody (.scalar dt) (bs ++ rest) = .ok (v, rest) := by
  have h1 : readN (widthOf dt) (bs ++ rest) = .ok (bs, rest) := by
    rw [← hw]
    exact readN_exact bs rest
  simp [DeserializeBody, hvl, h1, hmk]

theorem bodyRound (t : YQLType) : BodyRound t := by
  induction t with
  | scalar dt =>
      intro v hwt hfr hnull
      have hwt' : scalarWT dt v = true := by simpa [wellTyped] using hwt
      clear hwt hfr
      cases dt with
      | int8 =>
          cases v
          case valueNotSet =>
            exact absurd hnull (by simp [YQLValue.IsNull, YQLValuePB.value_case])
          case int8_value n =>
            simp [scalarWT] at hwt'
            have hts : toSigned 1 (bytesToNat (intbe 1 n)) = n :=
              toSigned_intbe 1 n (by norm_num; omega) (by norm_num; omega)
            refine ⟨intbe 1 n, rfl, ?_, ?_⟩
            · intro _ rest
              exact fixedDecode .int8 (intbe 1 n) rest _ rfl
                (intbe_length 1 n) (by simp [mkFixedScalar, hts])
            · intro hvt
              simp [isVarScalarT, isVarLen] at hvt
          all_goals simp [scalarWT] at hwt'
      | int16 =>
          cases v
          case valueNotSet =>
            exact absurd hnull (by simp [YQLValue.IsNull, YQLValuePB.value_case])
          case int16_value n =>
            simp [scalarWT] at hwt'
            have hts : toSigned 2 (bytesToNat (intbe 2 n)) = n :=
              toSigned_intbe 2 n (by norm_num; omega) (by norm_num; omega)
            refine ⟨intbe 2 n, rfl, ?_, ?_⟩
            · intro _ rest
              exact fixedDecode .int16 (intbe 2 n) rest _ rfl
                (intbe_length 2 n) (by simp [mkFixedScalar, hts])
            · intro hvt
              simp [isVarScalarT, isVarLen] at hvt
          all_goals simp [scalarWT] at hwt'
      | int32 =>
          cases v
          case valueNotSet =>
            exact absurd hnull (by simp [YQLValue.IsNull, YQLValuePB.value_case])
          case int32_value n =>
            simp [scalarWT] at hwt'
            have hts : toSigned 4 (bytesToNat (intbe 4 n)) = n :=
              toSigned_intbe 4 n (by norm_num; omega) (by norm_num; omega)
            refine ⟨intbe 4 n, rfl, ?_, ?_⟩
            · intro _ rest
              exact fixedDecode .int32 (intbe 4 n) rest _ rfl
                (intbe_length 4 n) (by simp [mkFixedScalar, hts])
            · intro hvt
              simp [isVarScalarT, isVarLen] at hvt
          all_goals simp [scalarWT] at hwt'
      | int64 =>
          cases v
          case valueNotSet =>
            exact absurd hnull (by simp [YQLValue.IsNull, YQLValuePB.value_case])
          case int64_value n =>
            simp [scalarWT] at hwt'
            have hts : toSigned 8 (bytesToNat (intbe 8 n)) = n :=
              toSigned_intbe 8 n (by norm_num; omega) (by norm_num; omega)
            refine ⟨intbe 8 n, rfl, ?_, ?_⟩
            · intro _ rest
              exact fixedDecode .int64 (intbe 8 n) rest _ rfl
                (intbe_length 8 n) (by simp [mkFixedScalar, hts])
            · intro hvt
              simp [isVarScalarT, isVarLen] at hvt
          all_goals simp [scalarWT] at hwt'
      | timestamp =>
          cases v
          case valueNotSet =>
            exact absurd hnull (by simp [YQLValue.IsNull, YQLValuePB.value_case])
          case timestamp_value n =>
            simp [scalarWT] at hwt'
            have hts : toSigned 8 (bytesToNat (intbe 8 n)) = n :=
              toSigned_intbe 8 n (by norm_num; omega) (by norm_num; omega)
            refine ⟨intbe 8 n, rfl, ?_, ?_⟩
            · intro _ rest
              exact fixedDecode .timestamp (intbe 8 n) rest _ rfl
                (intbe_length 8 n) (by simp [mkFixedScalar, hts])
            · intro hvt
              simp [isVarScalarT, isVarLen] at hvt
          all_goals simp [scalarWT] at hwt'
      | float =>
          cases v
          case valueNotSet =>
            exact absurd hnull (by simp [YQLValue.IsNull, YQLValuePB.value_case])
          case float_value b =>
            simp [scalarWT] at hwt'
            have hb : bytesToNat (natbe 4 b) = b := by
              rw [bytesToNat_natbe]
              apply Nat.mod_eq_of_lt
              norm_num at hwt' ⊢
              omega
            refine ⟨natbe 4 b, rfl, ?_, ?_⟩
            · intro _ rest
              exact fixedDecode .float (natbe 4 b) rest _ rfl
                (natbe_length 4 b) (by simp [mkFixedScalar, hb])
            · intro hvt
              simp [isVarScalarT, isVarLen] at hvt
          all_goals simp [scalarWT] at hwt'
      | double =>
          cases v
          case valueNotSet =>
            exact absurd hnull (by simp [YQLValue.IsNull, YQLValuePB.value_case])
          case double_value b =>
            simp [scalarWT] at hwt'
            have hb : bytesToNat (natbe 8 b) = b := by
              rw [bytesToNat_natbe]
              apply Nat.mod_eq_of_lt
              norm_num at hwt' ⊢
              omega
            refine ⟨natbe 8 b, rfl, ?_, ?_⟩
            · intro _ rest
              exact fixedDecode .double (natbe 8 b) rest _ rfl
                (natbe_length 8 b) (by simp [mkFixedScalar, hb])
            · intro hvt
              simp [isVarScalarT, isVarLen] at hvt
          all_goals simp [scalarWT] at hwt'
      | bool =>
          cases v
          case valueNotSet =>
            exact absurd hnull (by simp [YQLValue.IsNull, YQLValuePB.value_case])
          case bool_value b =>
            refine ⟨[cond b 1 0], rfl, ?_, ?_⟩
            · intro _ rest
              refine fixedDecode .bool [cond b 1 0] rest _ rfl
                (by cases b <;> rfl) ?_
              cases b <;> simp [mkFixedScalar]
            · intro hvt
              simp [isVarScalarT, isVarLen] at hvt
          all_goals simp [scalarWT] at hwt'
      | uuid =>
          cases v
          case valueNotSet =>
            exact absurd hnull (by simp [YQLValue.IsNull, YQLValuePB.value_case])
          case uuid_value bs =>
            simp [scalarWT] at hwt'
            refine ⟨bs, rfl, ?_, ?_⟩
            · intro _ rest
              exact fixedDecode .uuid bs rest _ rfl
                (by simp [widthOf, hwt'.1]) (by simp [mkFixedScalar])
            · intro hvt
              simp [isVarScalarT, isVarLen] at hvt
          all_goals simp [scalarWT] at hwt'
      | timeuuid =>
          cases v
          case valueNotSet =>
            exact absurd hnull (by simp [YQLValue.IsNull, YQLValuePB.value_case])
          case timeuuid_value bs =>
            simp [scalarWT] at hwt'
            refine ⟨bs, rfl, ?_, ?_⟩
            · intro _ rest
              exact fixedDecode .timeuuid bs rest _ rfl
                (by simp [widthOf, hwt'.1.1]) (by simp [mkFixedScalar, hwt'.2])
            · intro hvt
              simp [isVarScalarT, isVarLen] at hvt
          all_goals simp [scalarWT] at hwt'
      | string =>
          cases v
          case valueNotSet =>
            exact absurd hnull (by simp [YQLValue.IsNull, YQLValuePB.value_case])
          case string_value bs =>
            simp [scalarWT] at hwt'
            refine ⟨bs, rfl, ?_, ?_⟩
            · intro hvt
              simp [isVarScalarT, isVarLen] at hvt
            · intro _
              exact ⟨hwt'.2, by simp [mkVarScalar, scalarOfT]⟩
          all_goals simp [scalarWT] at hwt'
      | binary =>
          cases v
          case valueNotSet =>
            exact absurd hnull (by simp [YQLValue.IsNull, YQLValuePB.value_case])
          case binary_value bs =>
            simp [scalarWT] at hwt'
            refine ⟨bs, rfl, ?_, ?_⟩
            · intro hvt
              simp [isVarScalarT, isVarLen] at hvt
            · intro _
              exact ⟨hwt'.2, by simp [mkVarScalar, scalarOfT]⟩
          all_goals simp [scalarWT] at hwt'
      | decimal =>
          cases v
          case valueNotSet =>
            exact absurd hnull (by simp [YQLValue.IsNull, YQLValuePB.value_case])
          case decimal_value bs =>
            simp [scalarWT] at hwt'
            refine ⟨bs, rfl, ?_, ?_⟩
            · intro hvt
              simp [isVarScalarT, isVarLen] at hvt
            · intro _
              exact ⟨hwt'.2, by simp [mkVarScalar, scalarOfT]⟩
          all_goals simp [scalarWT] at hwt'
      | inet =>
          cases v
          case valueNotSet =>
            exact absurd hnull (by simp [YQLValue.IsNull, YQLValuePB.value_case])
          case inetaddress_value bs =>
            simp [scalarWT] at hwt'
            refine ⟨bs, rfl, ?_, ?_⟩
            · intro hvt
              simp [isVarScalarT, isVarLen] at hvt
            · intro _
              constructor
              · rcases hwt'.2 with h | h <;> rw [h] <;> norm_num
              · rcases hwt'.2 with h | h <;> simp [mkVarScalar, scalarOfT, h]
          all_goals simp [scalarWT] at hwt'
  | list te ihte =>
      intro v hwt hfr hnull
      cases v
      case valueNotSet =>
        exact absurd hnull (by simp [YQLValue.IsNull, YQLValuePB.value_case])
      case list_value es =>
        have hwt' : es.all (fun e => wellTyped te e) = true ∧ es.length < 2 ^ 31 := by
          simpa [wellTyped] using hwt
        have hfr' : es.all (fun e => framesOk te e &&
            decide (((SerializeBody te e).getD []).length < 2 ^ 31)) = true := by
          simpa [framesOk] using hfr
        have hE : ElemRound te := elem_of_body te ihte
        have helems : ∀ e ∈ es, ∃ b, elemSer (SerializeBody te) e = some b ∧
            ∀ r : List Nat,
              elemDe te (DeserializeBody te) (b ++ r) = .ok (e, r) := by
          intro e he
          have h1 : wellTyped te e = true := by
            have := List.all_eq_true.mp hwt'.1 e he
            simpa using this
          have h2 := List.all_eq_true.mp hfr' e he
          simp only [Bool.and_eq_true, decide_eq_true_eq] at h2
          exact hE e h1 h2.1 h2.2
        obtain ⟨bs, hser, hde⟩ :=
          seqRound (elemSer (SerializeBody te)) (elemDe te (DeserializeBody te))
            es helems
        refine ⟨int32be es.length ++ bs, by simp [SerializeBody, hser], ?_, ?_⟩
        · intro _ rest
          have hassoc : (int32be (es.length : Int) ++ bs) ++ rest =
              int32be (es.length : Int) ++ (bs ++ rest) := by simp
          have hnn : ¬ ((es.length : Int) < 0) := by omega
          have hcast : ((es.length : Int)).toNat = es.length := by omega
          rw [hassoc]
          simp [DeserializeBody, readInt32_ofNat es.length (bs ++ rest) hwt'.2,
            hnn, hcast, hde rest]
        · intro hvt
          simp [isVarScalarT] at hvt
      all_goals simp [wellTyped] at hwt
  | set te ihte =>
      intro v hwt hfr hnull
      cases v
      case valueNotSet =>
        exact absurd hnull (by simp [YQLValue.IsNull, YQLValuePB.value_case])
      case set_value es =>
        have hwt' : es.all (fun e => wellTyped te e) = true ∧ es.length < 2 ^ 31 := by
          simpa [wellTyped] using hwt
        have hfr' : es.all (fun e => framesOk te e &&
            decide (((SerializeBody te e).getD []).length < 2 ^ 31)) = true := by
          simpa [framesOk] using hfr
        have hE : ElemRound te := elem_of_body te ihte
        have helems : ∀ e ∈ es, ∃ b, elemSer (SerializeBody te) e = some b ∧
            ∀ r : List Nat,
              elemDe te (DeserializeBody te) (b ++ r) = .ok (e, r) := by
          intro e he
          have h1 : wellTyped te e = true := by
            have := List.all_eq_true.mp hwt'.1 e he
            simpa using this
          have h2 := List.all_eq_true.mp hfr' e he
          simp only [Bool.and_eq_true, decide_eq_true_eq] at h2
          exact hE e h1 h2.1 h2.2
        obtain ⟨bs, hser, hde⟩ :=
          seqRound (elemSer (SerializeBody te)) (elemDe te (DeserializeBody te))
            es helems
        refine ⟨int32be es.length ++ bs, by simp [SerializeBody, hser], ?_, ?_⟩
        · intro _ rest
          have hassoc : (int32be (es.length : Int) ++ bs) ++ rest =
              int32be (es.length : Int) ++ (bs ++ rest) := by simp
          have hnn : ¬ ((es.length : Int) < 0) := by omega
          have hcast : ((es.length : Int)).toNat = es.length := by omega
          rw [hassoc]
          simp [DeserializeBody, readInt32_ofNat es.length (bs ++ rest) hwt'.2,
            hnn, hcast, hde rest]
        · intro hvt
          simp [isVarScalarT] at hvt
      all_goals simp [wellTyped] at hwt
  | map tk tv ihtk ihtv =>
      intro v hwt hfr hnull
      cases v
      case valueNotSet =>
        exact absurd hnull (by simp [YQLValue.IsNull, YQLValuePB.value_case])
      case map_value ks vs =>
        have hwt' : (ks.all (fun k => wellTyped tk k) = true ∧
            vs.all (fun x => wellTyped tv x) = true) ∧
            ks.length = vs.length ∧ ks.length < 2 ^ 31 := by
          have h := hwt
          simp only [wellTyped, Bool.and_eq_true, decide_eq_true_eq] at h
          exact ⟨⟨h.1.1.1, h.1.1.2⟩, h.1.2, h.2⟩
        have hfr' : ks.all (fun k => framesOk tk k &&
              decide (((SerializeBody tk k).getD []).length < 2 ^ 31)) = true ∧
            vs.all (fun x => framesOk tv x &&
              decide (((SerializeBody tv x).getD []).length < 2 ^ 31)) = true := by
          simpa [framesOk, Bool.and_eq_true] using hfr
        have hEk : ElemRound tk := elem_of_body tk ihtk
        have hEv : ElemRound tv := elem_of_body tv ihtv
        have hks : ∀ k ∈ ks, ∃ b, elemSer (SerializeBody tk) k = some b ∧
            ∀ r : List Nat,
              elemDe tk (DeserializeBody tk) (b ++ r) = .ok (k, r) := by
          intro k hk
          have h1 : wellTyped tk k = true := by
            have := List.all_eq_true.mp hwt'.1.1 k hk
            simpa using this
          have h2 := List.all_eq_true.mp hfr'.1 k hk
          simp only [Bool.and_eq_true, decide_eq_true_eq] at h2
          exact hEk k h1 h2.1 h2.2
        have hvs : ∀ x ∈ vs, ∃ b, elemSer (SerializeBody tv) x = some b ∧
            ∀ r : List Nat,
              elemDe tv (DeserializeBody tv) (b ++ r) = .ok (x, r) := by
          intro x hx
          have h1 : wellTyped tv x = true := by
            have := List.all_eq_true.mp hwt'.1.2 x hx
            simpa using this
          have h2 := List.all_eq_true.mp hfr'.2 x hx
          simp only [Bool.and_eq_true, decide_eq_true_eq] at h2
          exact hEv x h1 h2.1 h2.2
        obtain ⟨bs, hser, hde⟩ :=
          pairRound (elemSer (SerializeBody tk)) (elemSer (SerializeBody tv))
            (elemDe tk (DeserializeBody tk)) (elemDe tv (DeserializeBody tv))
            ks vs hwt'.2.1 hks hvs
        refine ⟨int32be ks.length ++ bs, by simp [SerializeBody, hser], ?_, ?_⟩
        · intro _ rest
          have hassoc : (int32be (ks.length : Int) ++ bs) ++ rest =
              int32be (ks.length : Int) ++ (bs ++ rest) := by simp
          have hnn : ¬ ((ks.length : Int) < 0) := by omega
          have hcast : ((ks.length : Int)).toNat = ks.length := by omega
          rw [hassoc]
          simp [DeserializeBody,
            readInt32_ofNat ks.length (bs ++ rest) hwt'.2.2, hnn, hcast, hde rest]
        · intro hvt
          simp [isVarScalarT] at hvt
      all_goals simp [wellTyped] at hwt

/-! ## Claim theorems -/

/-- C2: for all value records `a` and `b`, if either is null then each of the
six relational operators evaluates to false — they can be true only when both
operands are non-null, because every operator is guarded by `BothNotNull`. -/
theorem c2_null_relational (a b : YQLValuePB)
    (h : YQLValue.EitherIsNull a b = true) :
    YQLValue.lt a b = false ∧ YQLValue.gt a b = false ∧
    YQLValue.le a b = false ∧ YQLValue.ge a b = false ∧
    YQLValue.eq a b = false ∧ YQLValue.ne a b = false := by
  have hb : YQLValue.BothNotNull a b = false := by
    unfold YQLValue.EitherIsNull at h
    unfold YQLValue.BothNotNull
    cases hA : YQLValue.IsNull a <;> cases hB : YQLValue.IsNull b <;>
      simp_all
  refine ⟨?_, ?_, ?_, ?_, ?_, ?_⟩ <;>
    simp [YQLValue.lt, YQLValue.gt, YQLValue.le, YQLValue.ge, YQLValue.eq,
      YQLValue.ne, hb]

/-- Witness for C2 at a concrete null/non-null pair. -/
theorem c2_null_relational_witness :
    YQLValue.lt YQLValuePB.valueNotSet (YQLValuePB.int8_value 0) = false ∧
    YQLValue.gt YQLValuePB.valueNotSet (YQLValuePB.int8_value 0) = false ∧
    YQLValue.le YQLValuePB.valueNotSet (YQLValuePB.int8_value 0) = false ∧
    YQLValue.ge YQLValuePB.valueNotSet (YQLValuePB.int8_value 0) = false ∧
    YQLValue.eq YQLValuePB.valueNotSet (YQLValuePB.int8_value 0) = false ∧
    YQLValue.ne YQLValuePB.valueNotSet (YQLValuePB.int8_value 0) = false :=
  c2_null_relational YQLValuePB.valueNotSet (YQLValuePB.int8_value 0) rfl

/-- C3 counterexample: setting a time-UUID from a version-4 UUID does not
surface a recoverable `InvalidArgument` result — the setter's `CHECK_OK`
trips, a hard assertion (process abort) carrying that status. -/
theorem c3_counterexample :
    YQLValue.set_timeuuid_value
        [0, 0, 0, 0, 0, 0, 64, 0, 128, 0, 0, 0, 0, 0, 0, 0]
        YQLValuePB.valueNotSet =
      SetResult.checkFailed RStatus.invalidArgument := rfl

/-- C3 amended: setting a time-UUID value from a UUID whose version field is
not time-based (version 1) trips the hard assertion `CHECK_OK` on the
`InvalidArgument` condition returned by `IsTimeUuid`, rather than returning a
recoverable result; for every UUID whose version field is time-based, the
setter succeeds and stores the UUID. -/
theorem c3_timeuuid_setter (u : List Nat) (v : YQLValuePB) :
    (Uuid.version u = 1 →
      YQLValue.set_timeuuid_value u v = SetResult.ok (.timeuuid_value u)) ∧
    (Uuid.version u ≠ 1 →
      YQLValue.set_timeuuid_value u v =
        SetResult.checkFailed RStatus.invalidArgument) := by
  constructor <;> intro h <;>
    simp [YQLValue.set_timeuuid_value, Uuid.IsTimeUuid, h]

/-- Witness for C3 at a concrete time-based (version 1) and a concrete
version-3 UUID. -/
theorem c3_timeuuid_setter_witness :
    YQLValue.set_timeuuid_value
        [0, 0, 0, 0, 0, 0, 16, 0, 128, 0, 0, 0, 0, 0, 0, 0]
        YQLValuePB.valueNotSet =
      SetResult.ok
        (.timeuuid_value [0, 0, 0, 0, 0, 0, 16, 0, 128, 0, 0, 0, 0, 0, 0, 0]) ∧
    YQLValue.set_timeuuid_value
        [0, 0, 0, 0, 0, 0, 48, 0, 128, 0, 0, 0, 0, 0, 0, 0]
        YQLValuePB.valueNotSet =
      SetResult.checkFailed RStatus.invalidArgument :=
  ⟨(c3_timeuuid_setter [0, 0, 0, 0, 0, 0, 16, 0, 128, 0, 0, 0, 0, 0, 0, 0]
      YQLValuePB.valueNotSet).1 (by decide),
   (c3_timeuuid_setter [0, 0, 0, 0, 0, 0, 48, 0, 128, 0, 0, 0, 0, 0, 0, 0]
      YQLValuePB.valueNotSet).2 (by decide)⟩

/-- C4 counterexample: move-assignment (`Swap`) does not leave the source
null — moving a string into a destination that held int32 7 leaves the
moved-from source holding int32 7, whose `IsNull()` is false. -/
theorem c4_counterexample :
    YQLValue.AssignMove (YQLValuePB.int32_value 7) (YQLValuePB.string_value [97]) =
      (YQLValuePB.string_value [97], YQLValuePB.int32_value 7) ∧
    YQLValue.IsNull
      (YQLValue.AssignMove (YQLValuePB.int32_value 7)
        (YQLValuePB.string_value [97])).2 = false :=
  ⟨rfl, rfl⟩

/-- C4 amended: copy-assignment (`Assign` = `CopyFrom`) duplicates the
source's active tag and payload into the destination (fully replacing it) and
leaves the source unchanged; move-assignment (`AssignMove` = `Swap`) gives the
destination the source's tag and payload, but the moved-from source receives
the destination's prior tag and payload — so it is null afterwards exactly
when the destination was null before the move, not unconditionally. -/
theorem c4_assignment (d s : YQLValuePB) :
    YQLValue.Assign d s = s ∧
    YQLValue.AssignMove d s = (s, d) ∧
    (YQLValue.AssignMove d s).1.value_case = s.value_case ∧
    (YQLValue.AssignMove d s).2.value_case = d.value_case ∧
    YQLValue.IsNull (YQLValue.AssignMove d s).2 = YQLValue.IsNull d :=
  ⟨rfl, rfl, rfl, rfl, rfl⟩

/-- C7 counterexample: a single `add_map_key` on a freshly set map appends to
the key sequence only, so the key and value sequences have lengths 1 and 0 —
not every operation of the interface preserves equal lengths. -/
theorem c7_counterexample :
    YQLValue.add_map_key (YQLValue.set_map_value YQLValuePB.valueNotSet) =
      YQLValuePB.map_value [YQLValuePB.valueNotSet] [] ∧
    (YQLValue.mapLens
      (YQLValue.add_map_key (YQLValue.set_map_value YQLValuePB.valueNotSet))).1 ≠
    (YQLValue.mapLens
      (YQLValue.add_map_key (YQLValue.set_map_value YQLValuePB.valueNotSet))).2 :=
  ⟨rfl, by decide⟩

/-- C7 amended: a paired `add_map_key`/`add_map_value` append extends both
sequences by one null element each, and `set_map_value()` on a record whose
tag is not map followed by `n` paired appends yields key and value sequences
of equal length `n`, index-aligned (element `i` of the keys pairs with element
`i` of the values). A lone `add_map_key` (or `add_map_value`) extends only one
sequence, so equal length holds after paired appends, not after every single
operation. -/
theorem c7_map_paired_append (v : YQLValuePB) (n : Nat)
    (ks vs : List YQLValuePB) (h : v.value_case ≠ ValueCase.kMapValue) :
    YQLValue.addMapPair (.map_value ks vs) =
      .map_value (ks ++ [.valueNotSet]) (vs ++ [.valueNotSet]) ∧
    YQLValue.addMapPair^[n] (YQLValue.set_map_value v) =
      .map_value (List.replicate n .valueNotSet) (List.replicate n .valueNotSet) ∧
    (YQLValue.mapLens (YQLValue.addMapPair^[n] (YQLValue.set_map_value v))).1 =
      (YQLValue.mapLens (YQLValue.addMapPair^[n] (YQLValue.set_map_value v))).2 := by
  have hset : YQLValue.set_map_value v = .map_value [] [] := by
    cases v <;> first | rfl | exact absurd rfl h
  have hiter := addMapPair_iterate n [] []
  simp only [List.nil_append] at hiter
  refine ⟨rfl, ?_, ?_⟩
  · rw [hset, hiter]
  · rw [hset, hiter]
    simp [YQLValue.mapLens]

/-- Witness for C7 at two paired appends on a null record. -/
theorem c7_map_paired_append_witness :
    YQLValue.addMapPair
        (.map_value [YQLValuePB.valueNotSet] [YQLValuePB.valueNotSet]) =
      .map_value [YQLValuePB.valueNotSet, YQLValuePB.valueNotSet]
        [YQLValuePB.valueNotSet, YQLValuePB.valueNotSet] ∧
    YQLValue.addMapPair^[2] (YQLValue.set_map_value YQLValuePB.valueNotSet) =
      .map_value (List.replicate 2 .valueNotSet) (List.replicate 2 .valueNotSet) ∧
    (YQLValue.mapLens
      (YQLValue.addMapPair^[2]
        (YQLValue.set_map_value YQLValuePB.valueNotSet))).1 =
      (YQLValue.mapLens
        (YQLValue.addMapPair^[2]
          (YQLValue.set_map_value YQLValuePB.valueNotSet))).2 := by
  have h := c7_map_paired_append YQLValuePB.valueNotSet 2
    [YQLValuePB.valueNotSet] [YQLValuePB.valueNotSet] (by decide)
  exact h

/-- C9: `SetColumnValue(name, value, row)` returns `NotFound` (producing no
updated row) when the name is absent from the schema, and when the name is
present it writes the value, converted for the matching column's declared
type, into the row cell at the first matching column index and returns OK. -/
theorem c9_set_column_value {α : Type} (schema : List ColumnSchema)
    (getValue : α → DataType → YQLValuePB) (col_name : String) (value : α)
    (row : List YQLValuePB) :
    ((∀ c ∈ schema, c.name ≠ col_name) →
      SetColumnValue schema getValue col_name value row =
        Except.error RStatus.notFound) ∧
    (∀ (i : Nat) (c : ColumnSchema), schema[i]? = some c →
      c.name = col_name →
      (∀ (j : Nat) (cj : ColumnSchema), j < i → schema[j]? = some cj →
        cj.name ≠ col_name) →
      SetColumnValue schema getValue col_name value row =
        Except.ok (row.set i (getValue value c.dtype))) := by
  constructor
  · intro h
    simp [SetColumnValue, find_column_of_absent schema col_name h]
  · intro i c hget hname hfirst
    have hf : find_column schema col_name = (i : Int) :=
      find_column_of_first schema col_name i c hget hname hfirst
    have hne : (i : Int) ≠ kColumnNotFound := by
      simp only [kColumnNotFound]
      omega
    simp [SetColumnValue, hf, hne, List.getD_eq_getElem?_getD, hget]

/-- Witness for C9: a lookup miss on a one-column schema, and a hit on its
only column. -/
theorem c9_set_column_value_witness :
    SetColumnValue [⟨"peer", DataType.int32⟩]
        (fun (n : Int) _ => YQLValuePB.int32_value n) "missing" 4
        [YQLValuePB.valueNotSet] =
      Except.error RStatus.notFound ∧
    SetColumnValue [⟨"peer", DataType.int32⟩]
        (fun (n : Int) _ => YQLValuePB.int32_value n) "peer" 4
        [YQLValuePB.valueNotSet] =
      Except.ok
        ([YQLValuePB.valueNotSet].set 0 (YQLValuePB.int32_value 4)) :=
  ⟨(c9_set_column_value [⟨"peer", DataType.int32⟩]
      (fun (n : Int) _ => YQLValuePB.int32_value n) "missing" 4
      [YQLValuePB.valueNotSet]).1
      (by intro c hc; simp at hc; subst hc; decide),
   (c9_set_column_value [⟨"peer", DataType.int32⟩]
      (fun (n : Int) _ => YQLValuePB.int32_value n) "peer" 4
      [YQLValuePB.valueNotSet]).2 0 ⟨"peer", DataType.int32⟩ rfl rfl
      (by intro j cj hj _; omega)⟩

/-- C1 counterexample: serializing a null int8 — a value of a supported type
(null included) — produces no byte string at all: fixed-width types carry no
length header, so a null of such a type cannot be encoded and the round-trip
property fails there as stated. -/
theorem c1_counterexample :
    Serialize (.scalar .int8) 0 YQLValuePB.valueNotSet = none := rfl

/-- C1 amended: for every logical type, every client-protocol version and
every machine-representable value of that type (payloads in range, map key
and value sequences of equal length, counts and element bodies within the
4-byte headers), with null permitted only at types that carry a length/count
header (fixed-width scalars must never be asked to serialize a null, and
`Serialize` yields nothing for them), `Deserialize` applied to the bytes
produced by `Serialize` yields the same record and consumes exactly the bytes
produced (any suffix is left untouched). -/
theorem c1_roundtrip (t : YQLType) (client : Nat) (v : YQLValuePB)
    (rest : List Nat) (hwt : wellTyped t v = true)
    (hfr : framesOk t v = true) :
    (YQLValue.IsNull v = true → topHasLen t = false →
      Serialize t client v = none) ∧
    ((YQLValue.IsNull v = true → topHasLen t = true) →
      ∃ bs, Serialize t client v = some bs ∧
        Deserialize t client (bs ++ rest) = .ok (v, rest)) := by
  constructor
  · intro hn ht
    simp [Serialize, hn, ht]
  · intro himp
    by_cases hn : YQLValue.IsNull v = true
    · have ht := himp hn
      have hv : v = .valueNotSet := (isNull_iff v).mp hn
      subst hv
      refine ⟨cqlNull, by simp [Serialize, YQLValue.IsNull, YQLValuePB.value_case, ht], ?_⟩
      cases t with
      | scalar dt =>
          have hvar : isVarLen dt = true := by simpa [topHasLen] using ht
          simp [Deserialize, hvar, readInt32_cqlNull rest]
      | list te =>
          simp only [Deserialize]
          rw [DeserializeBody.eq_2]
          beta_reduce
          rw [readInt32_cqlNull rest]
          norm_num
      | set te =>
          simp only [Deserialize]
          rw [DeserializeBody.eq_3]
          beta_reduce
          rw [readInt32_cqlNull rest]
          norm_num
      | map tk tv =>
          simp only [Deserialize]
          rw [DeserializeBody.eq_4]
          beta_reduce
          rw [readInt32_cqlNull rest]
          norm_num
    · have hnf : YQLValue.IsNull v = false := by simpa using hn
      obtain ⟨bs, hser, hfix, hvar⟩ := bodyRound t v hwt hfr hnf
      cases t with
      | scalar dt =>
          by_cases hdt : isVarLen dt = true
          · obtain ⟨hlen, hmk⟩ := hvar (by simp [isVarScalarT, hdt])
            have hmk' : mkVarScalar dt bs = .ok v := hmk
            have hsb : scalarBody dt v = some bs := by
              simpa [SerializeBody] using hser
            refine ⟨cqlFrame bs, by simp [Serialize, hnf, hsb, hdt], ?_⟩
            rw [cqlFrame_split]
            have hnn : ¬ ((bs.length : Int) < 0) := by omega
            have hcast : ((bs.length : Int)).toNat = bs.length := by omega
            simp [Deserialize, hdt, readInt32_ofNat bs.length (bs ++ rest) hlen,
              hnn, hcast, readN_exact bs rest, hmk']
          · have hdf : isVarLen dt = false := by simpa using hdt
            have hsb : scalarBody dt v = some bs := by
              simpa [SerializeBody] using hser
            refine ⟨bs, by simp [Serialize, hnf, hsb, hdf], ?_⟩
            have hfix' := hfix (by simp [isVarScalarT, hdf]) rest
            simpa [Deserialize, hdf] using hfix'
      | list te =>
          refine ⟨bs, by simp [Serialize, hnf, hser], ?_⟩
          have hfix' := hfix (by simp [isVarScalarT]) rest
          simpa [Deserialize] using hfix'
      | set te =>
          refine ⟨bs, by simp [Serialize, hnf, hser], ?_⟩
          have hfix' := hfix (by simp [isVarScalarT]) rest
          simpa [Deserialize] using hfix'
      | map tk tv =>
          refine ⟨bs, by simp [Serialize, hnf, hser], ?_⟩
          have hfix' := hfix (by simp [isVarScalarT]) rest
          simpa [Deserialize] using hfix'

/-- Witness for C1 at a concrete string value with a nonempty suffix, and the
refusal to serialize a null of a fixed-width type. -/
theorem c1_roundtrip_witness :
    (∃ bs, Serialize (.scalar .string) 0 (YQLValuePB.string_value [97]) = some bs ∧
      Deserialize (.scalar .string) 0 (bs ++ [7]) =
        .ok (YQLValuePB.string_value [97], [7])) ∧
    Serialize (.scalar .int8) 0 YQLValuePB.valueNotSet = none :=
  ⟨(c1_roundtrip (.scalar .string) 0 (YQLValuePB.string_value [97]) [7]
      (by decide) (by decide)).2 (fun h => absurd h (by decide)),
   (c1_roundtrip (.scalar .int8) 0 YQLValuePB.valueNotSet []
      (by decide) (by decide)).1 (by decide) (by decide)⟩

/-- C5: the numeric decode helper reads exactly `len` bytes when that many
remain (advancing the cursor by exactly `len` and setting the converted
narrowed value), and fails with `Corruption` when fewer than `len` bytes
remain; at the `Deserialize` level, a declared string length exceeding the
remaining input fails with `Corruption`. -/
theorem c5_decode_corruption (len : Nat) (setter : Int → YQLValuePB)
    (data : List Nat) :
    (data.length < len →
      CQLDeserializeNum len setter data = .error .corruption) ∧
    (len ≤ data.length →
      CQLDeserializeNum len setter data =
        .ok (setter (toSigned len (bytesToNat (data.take len))), data.drop len)) ∧
    (∀ (L : Nat) (bs : List Nat), bs.length < L → L < 2 ^ 31 →
      Deserialize (.scalar .string) 0 (int32be L ++ bs) =
        .error .corruption) := by
  refine ⟨?_, ?_, ?_⟩
  · intro h
    simp [CQLDeserializeNum, CQLDecodeNum, readN_short len data h]
  · intro h
    have hno : ¬ (data.length < len) := by omega
    simp [CQLDeserializeNum, CQLDecodeNum, readN, hno]
  · intro L bs hshort hL
    have hr : readInt32 (int32be (L : Int) ++ bs) = .ok ((L : Int), bs) :=
      readInt32_ofNat L bs hL
    have hnn : ¬ ((L : Int) < 0) := by omega
    have hcast : ((L : Int)).toNat = L := by omega
    simp [Deserialize, isVarLen, hr, hnn, hcast, readN_short L bs hshort]

/-- Witness for C5: a 4-byte decode on a 3-byte cursor fails with Corruption,
a 2-byte decode on a 3-byte cursor consumes exactly 2 bytes, and a string
with declared length 2 over a 1-byte remainder fails with Corruption. -/
theorem c5_decode_corruption_witness :
    CQLDeserializeNum 4 YQLValuePB.int32_value [0, 0, 1] =
      .error .corruption ∧
    CQLDeserializeNum 2 YQLValuePB.int16_value [1, 2, 3] =
      .ok (YQLValuePB.int16_value 258, [3]) ∧
    Deserialize (.scalar .string) 0 (int32be 2 ++ [9]) =
      .error .corruption :=
  ⟨(c5_decode_corruption 4 YQLValuePB.int32_value [0, 0, 1]).1 (by decide),
   (c5_decode_corruption 2 YQLValuePB.int16_value [1, 2, 3]).2.1 (by decide),
   (c5_decode_corruption 0 YQLValuePB.int32_value []).2.2 2 [9]
     (by decide) (by norm_num)⟩

/-- C8: the int32 value 42 encodes as `00 00 00 2A`, the string "ab" (bytes
97 98) as `00 00 00 02 61 62`, and a null string as `FF FF FF FF`; decoding
each byte string yields the original logical value (and the null decode
yields a record with `IsNull()` true), consuming the whole input. -/
theorem c8_concrete_encodings :
    Serialize (.scalar .int32) 0 (YQLValuePB.int32_value 42) =
      some [0, 0, 0, 42] ∧
    Serialize (.scalar .string) 0 (YQLValuePB.string_value [97, 98]) =
      some [0, 0, 0, 2, 97, 98] ∧
    Serialize (.scalar .string) 0 YQLValuePB.valueNotSet =
      some [255, 255, 255, 255] ∧
    Deserialize (.scalar .int32) 0 [0, 0, 0, 42] =
      .ok (YQLValuePB.int32_value 42, []) ∧
    Deserialize (.scalar .string) 0 [0, 0, 0, 2, 97, 98] =
      .ok (YQLValuePB.string_value [97, 98], []) ∧
    Deserialize (.scalar .string) 0 [255, 255, 255, 255] =
      .ok (YQLValuePB.valueNotSet, []) ∧
    YQLValue.IsNull YQLValuePB.valueNotSet = true :=
  ⟨rfl, rfl, rfl, rfl, rfl, rfl, rfl⟩

/-- C10: appending to a collection through `add_map_key`/`add_map_value`/
`add_set_elem`/`add_list_elem` on a record whose tag is not already that
collection type (including a null record) does not fail or assert: the
`mutable_foo` call switches the tag to the collection type with fresh empty
backing storage and the append adds one new null element, so a prior
`set_map_value`/`set_set_value`/`set_list_value` call is not required. -/
theorem c10_add_without_set (v : YQLValuePB) :
    (v.value_case ≠ ValueCase.kMapValue →
      YQLValue.add_map_key v = .map_value [.valueNotSet] [] ∧
      YQLValue.add_map_value v = .map_value [] [.valueNotSet]) ∧
    (v.value_case ≠ ValueCase.kSetValue →
      YQLValue.add_set_elem v = .set_value [.valueNotSet]) ∧
    (v.value_case ≠ ValueCase.kListValue →
      YQLValue.add_list_elem v = .list_value [.valueNotSet]) := by
  cases v <;>
    refine ⟨?_, ?_, ?_⟩ <;>
    first
      | (intro h; exact absurd rfl h)
      | (intro h; exact ⟨rfl, rfl⟩)
      | (intro h; rfl)

/-- Witness for C10 on a null record. -/
theorem c10_add_without_set_witness :
    (YQLValue.add_map_key YQLValuePB.valueNotSet =
        .map_value [.valueNotSet] [] ∧
      YQLValue.add_map_value YQLValuePB.valueNotSet =
        .map_value [] [.valueNotSet]) ∧
    YQLValue.add_set_elem YQLValuePB.valueNotSet = .set_value [.valueNotSet] ∧
    YQLValue.add_list_elem YQLValuePB.valueNotSet =
      .list_value [.valueNotSet] :=
  ⟨(c10_add_without_set YQLValuePB.valueNotSet).1 (by decide),
   (c10_add_without_set YQLValuePB.valueNotSet).2.1 (by decide),
   (c10_add_without_set YQLValuePB.valueNotSet).2.2 (by decide)⟩

end YB
